import Mathlib

/-!
# Family expense tracker — verification of the data-access layer

A shallow embedding in Lean 4 of the tracker module (`main.py`): the two
tables (`members`, `expenses`), the repository operations of the
`FamilyExpenseTracker` class, and the aggregate queries.

Modelling conventions:
* Python strings are sequences of Unicode code points, modelled as `List Nat`
  (`PyStr`).  SQLite compares `TEXT` values with its BINARY collation
  (byte-wise over UTF-8), which coincides with code-point lexicographic order,
  modelled by `lexLt`.
* Python's ASCII case mapping (`str.title`, `str.strip`) is modelled on code
  points (`lowerCp`, `upperCp`, `isAlphaCp`, `isSpaceCp`, `pyStrip`, `pyTitle`).
* `REAL` amounts are modelled as exact rationals (`Rat`).
* A raised `ValueError` is an `Except.error`; an `Except.error` result carries
  no successor state, so an error leaves both tables untouched, exactly as the
  source raises before opening a connection.
* `created_at` timestamps (`datetime('now')`, second granularity) are modelled
  by a clock field `now` on the state; the clock advances only via an explicit
  `tick` transition, so two inserts inside one clock instant share their
  `created_at`, as two inserts inside one second do in the source.
* `SELECT ... ORDER BY k` is modelled as a stable sort by `k` of the table in
  insertion (rowid) order, matching SQLite's scan-order behaviour on equal
  keys: SQLite adds no hidden tie-breaker beyond the written sort key.
-/

instance {ε α : Type} [DecidableEq ε] [DecidableEq α] : DecidableEq (Except ε α) :=
  fun x y =>
    match x, y with
    | .error e, .error f =>
      if h : e = f then isTrue (by rw [h]) else isFalse (by intro hh; cases hh; exact h rfl)
    | .ok a, .ok b =>
      if h : a = b then isTrue (by rw [h]) else isFalse (by intro hh; cases hh; exact h rfl)
    | .error _, .ok _ => isFalse (by intro h; cases h)
    | .ok _, .error _ => isFalse (by intro h; cases h)

/-- A Python string: its sequence of Unicode code points. -/
abbrev PyStr := List Nat

/-- Code points of a Lean string literal, to write concrete inputs. -/
def strCp (s : String) : PyStr := s.data.map Char.toNat

/-- Python whitespace (ASCII part), as consumed by `str.strip()`. -/
def isSpaceCp (n : Nat) : Bool :=
  n = 32 || n = 9 || n = 10 || n = 13 || n = 11 || n = 12

/-- ASCII lower-casing of one code point (`str.lower` on ASCII letters). -/
def lowerCp (n : Nat) : Nat := if 65 ≤ n ∧ n ≤ 90 then n + 32 else n

/-- ASCII upper-casing of one code point. -/
def upperCp (n : Nat) : Nat := if 97 ≤ n ∧ n ≤ 122 then n - 32 else n

/-- Is the code point a cased (ASCII) letter?  Word state of `str.title`. -/
def isAlphaCp (n : Nat) : Bool :=
  if 65 ≤ n ∧ n ≤ 90 then true else if 97 ≤ n ∧ n ≤ 122 then true else false

/-- Drop leading whitespace (the left half of `str.strip()`). -/
def stripLead : PyStr → PyStr
  | [] => []
  | c :: cs => if isSpaceCp c then stripLead cs else c :: cs

/-- Drop trailing whitespace (the right half of `str.strip()`). -/
def stripTrail : PyStr → PyStr
  | [] => []
  | c :: cs => if stripTrail cs = [] ∧ isSpaceCp c then [] else c :: stripTrail cs

/-- Python `s.strip()`: whitespace removed from both ends. -/
def pyStrip (s : PyStr) : PyStr := stripLead (stripTrail s)

/-- Python `s.title()`, worker: the flag records whether the previous
character was a cased letter; a letter after a non-letter is upper-cased,
a letter after a letter is lower-cased, other characters pass through. -/
def titleAux : Bool → PyStr → PyStr
  | _, [] => []
  | prevCased, c :: cs =>
    if isAlphaCp c then
      (if prevCased then lowerCp c else upperCp c) :: titleAux true cs
    else
      c :: titleAux false cs

/-- Python `s.title()`. -/
def pyTitle (s : PyStr) : PyStr := titleAux false s

/-- Strict code-point lexicographic order on strings: SQLite's BINARY
collation for `TEXT` (byte order over UTF-8 equals code-point order). -/
def lexLt : PyStr → PyStr → Bool
  | _, [] => false
  | [], _ :: _ => true
  | a :: as, b :: bs => if a < b then true else if a = b then lexLt as bs else false

/-- A row of the `members` table (schema of `init_db`): `name TEXT UNIQUE`,
`earning_status INTEGER`, `earnings REAL`. -/
structure MemberRow where
  name : PyStr
  earning_status : Int
  earnings : Rat
deriving DecidableEq, Repr

/-- A row of the `expenses` table (schema of `init_db`). -/
structure ExpenseRow where
  id : Nat
  person : PyStr
  description : PyStr
  amount : Rat
  category_period : PyStr
  category : PyStr
  expense_type : PyStr
  sub_type : PyStr
  date : PyStr
  created_at : Nat
deriving DecidableEq, Repr

/-- The database state: both tables in insertion (rowid) order, the next
`AUTOINCREMENT` id for expenses, and the clock supplying `datetime('now')`. -/
structure DB where
  members : List MemberRow
  expenses : List ExpenseRow
  nextExpenseId : Nat
  now : Nat
deriving DecidableEq, Repr

/-- The state right after `init_db()`: both tables exist and are empty;
SQLite's `AUTOINCREMENT` starts at rowid 1. -/
def initDB : DB := { members := [], expenses := [], nextExpenseId := 1, now := 0 }

/-- The clock advances (a second passes). -/
def tick (db : DB) : DB := { db with now := db.now + 1 }

/-- `add_member(name, earning_status, earnings)`:
normalises `name` with `.strip().title()`, raises `ValueError` when the
result is empty, otherwise `INSERT OR IGNORE` into `members` — the insert is
dropped when a row with that (unique) name already exists.  Stores
`int(bool(earning_status))` and `float(earnings)`. -/
def addMember (db : DB) (name : PyStr) (earning_status : Bool) (earnings : Rat) :
    Except String DB :=
  let n := pyTitle (pyStrip name)
  if n = [] then .error "Name cannot be empty."
  else .ok { db with members :=
    if db.members.any (fun m => m.name = n) then db.members
    else db.members ++
      [{ name := n
         earning_status := if earning_status then 1 else 0
         earnings := earnings }] }

/-- `update_member(name, earning_status, earnings)`:
`UPDATE members SET earning_status=?, earnings=? WHERE name=?` with the key
`name.title()` — note: no `.strip()`, unlike `add_member`.  Updates every
matching row (at most one, names being unique); no error when none matches. -/
def updateMember (db : DB) (name : PyStr) (earning_status : Bool) (earnings : Rat) :
    DB :=
  { db with members := db.members.map (fun m =>
      if m.name = pyTitle name then
        { m with earning_status := if earning_status then 1 else 0
                 earnings := earnings }
      else m) }

/-- `delete_member(member_name)`: `DELETE FROM members WHERE name = ?`,
exact match, no normalisation. -/
def deleteMember (db : DB) (member_name : PyStr) : DB :=
  { db with members := db.members.filter (fun m => m.name ≠ member_name) }

/-- Stable insertion of `x` into a list sorted by the strict order `lt`:
`x` goes after every element it does not strictly precede. -/
def insertBy {α : Type} (lt : α → α → Bool) (x : α) : List α → List α
  | [] => [x]
  | y :: ys => if lt x y then x :: y :: ys else y :: insertBy lt x ys

/-- Stable sort by the strict order `lt`: elements are inserted in list
order, so elements the order does not separate keep their relative order.
Models `SELECT ... ORDER BY` over the table in rowid order. -/
def sortBy {α : Type} (lt : α → α → Bool) (l : List α) : List α :=
  l.foldl (fun acc x => insertBy lt x acc) []

/-- `get_members_df()`: `SELECT * FROM members ORDER BY name`. -/
def getMembersDf (db : DB) : List MemberRow :=
  sortBy (fun a b => lexLt a.name b.name) db.members

/-- `a` strictly precedes `b` under `ORDER BY date DESC, created_at DESC`. -/
def expLt (a b : ExpenseRow) : Bool :=
  if lexLt b.date a.date then true
  else if a.date = b.date then decide (b.created_at < a.created_at)
  else false

/-- `get_expenses_df()`: `SELECT * FROM expenses ORDER BY date DESC,
created_at DESC` (the subsequent `parse_dates`/`to_datetime` step changes
only the column's type, not row content or order). -/
def getExpensesDf (db : DB) : List ExpenseRow :=
  sortBy expLt db.expenses

/-- Python `x or ""` on an optional string: `None` and `""` give `""`,
anything else passes through — exactly `Option.getD` with default `""`. -/
def pyOrEmpty (x : Option PyStr) : PyStr := x.getD []

/-- `add_expense(person, amount, category_period, category, expense_type,
sub_type, description, date_iso)`: normalises `person` with
`.strip().title()` and raises `ValueError` when it is empty; raises
`ValueError` when `amount ≤ 0`; otherwise inserts one row, storing
`description or ""` and `sub_type or ""`, a fresh `AUTOINCREMENT` id and
the current timestamp. -/
def addExpense (db : DB) (person : PyStr) (amount : Rat)
    (category_period : PyStr) (category : PyStr) (expense_type : PyStr)
    (sub_type : Option PyStr) (description : Option PyStr)
    (date_iso : PyStr) : Except String DB :=
  let p := pyTitle (pyStrip person)
  if p = [] then .error "Expense must be associated with a person."
  else if amount ≤ 0 then .error "Amount must be positive."
  else .ok { db with
    expenses := db.expenses ++
      [{ id := db.nextExpenseId
         person := p
         description := pyOrEmpty description
         amount := amount
         category_period := category_period
         category := category
         expense_type := expense_type
         sub_type := pyOrEmpty sub_type
         date := date_iso
         created_at := db.now }]
    nextExpenseId := db.nextExpenseId + 1 }

/-- `delete_expense(expense_id)`: `DELETE FROM expenses WHERE id = ?`. -/
def deleteExpense (db : DB) (expense_id : Nat) : DB :=
  { db with expenses := db.expenses.filter (fun e => e.id ≠ expense_id) }

/-- `total_earnings()`: reads `get_members_df()`, returns `0.0` on an empty
frame, otherwise the sum of the `earnings` column. -/
def total_earnings (db : DB) : Rat :=
  let df := getMembersDf db
  if df.isEmpty then 0 else (df.map (fun m => m.earnings)).sum

/-- `total_expenditure()`: reads `get_expenses_df()`, returns `0.0` on an
empty frame, otherwise the sum of the `amount` column. -/
def total_expenditure (db : DB) : Rat :=
  let df := getExpensesDf db
  if df.isEmpty then 0 else (df.map (fun e => e.amount)).sum

/-- The states reachable from a fresh database through the tracker's
operations (failed calls raise and change nothing, so they give no
transition; `tick` lets wall-clock time pass between calls). -/
inductive Reachable : DB → Prop
  | init : Reachable initDB
  | add_member {db db' : DB} {n : PyStr} {es : Bool} {e : Rat} :
      Reachable db → addMember db n es e = .ok db' → Reachable db'
  | update_member {db : DB} {n : PyStr} {es : Bool} {e : Rat} :
      Reachable db → Reachable (updateMember db n es e)
  | delete_member {db : DB} {n : PyStr} :
      Reachable db → Reachable (deleteMember db n)
  | add_expense {db db' : DB} {p : PyStr} {a : Rat} {cp c et : PyStr}
      {st d : Option PyStr} {dt : PyStr} :
      Reachable db → addExpense db p a cp c et st d dt = .ok db' → Reachable db'
  | delete_expense {db : DB} {i : Nat} :
      Reachable db → Reachable (deleteExpense db i)
  | tick {db : DB} : Reachable db → Reachable (tick db)

/-- The states reachable when every `add_member`/`update_member` call passes
a non-negative `earnings` argument (as the producing UI form, whose earnings
widget has `min_value=0.0`, does). -/
inductive ReachableNN : DB → Prop
  | init : ReachableNN initDB
  | add_member {db db' : DB} {n : PyStr} {es : Bool} {e : Rat} :
      ReachableNN db → 0 ≤ e → addMember db n es e = .ok db' → ReachableNN db'
  | update_member {db : DB} {n : PyStr} {es : Bool} {e : Rat} :
      ReachableNN db → 0 ≤ e → ReachableNN (updateMember db n es e)
  | delete_member {db : DB} {n : PyStr} :
      ReachableNN db → ReachableNN (deleteMember db n)
  | add_expense {db db' : DB} {p : PyStr} {a : Rat} {cp c et : PyStr}
      {st d : Option PyStr} {dt : PyStr} :
      ReachableNN db → addExpense db p a cp c et st d dt = .ok db' →
      ReachableNN db'
  | delete_expense {db : DB} {i : Nat} :
      ReachableNN db → ReachableNN (deleteExpense db i)
  | tick {db : DB} : ReachableNN db → ReachableNN (tick db)

/-- Two strings are the same name in (possibly) different letter case:
same length, and character-wise equal after lower-casing. -/
def caseVariant (s t : PyStr) : Prop :=
  List.Forall₂ (fun a b => lowerCp a = lowerCp b) s t

/-! ## Order lemmas for the BINARY collation -/

theorem lexLt_irrefl (l : PyStr) : lexLt l l = false := by
  induction l with
  | nil => rfl
  | cons a as ih => simp [lexLt, ih]

theorem lexLt_trans : ∀ a b c : PyStr, lexLt a b = true → lexLt b c = true →
    lexLt a c = true := by
  intro a
  induction a with
  | nil =>
    intro b c hab hbc
    cases b with
    | nil => simp [lexLt] at hab
    | cons y ys =>
      cases c with
      | nil => simp [lexLt] at hbc
      | cons z zs => rfl
  | cons x xs ih =>
    intro b c hab hbc
    cases b with
    | nil => simp [lexLt] at hab
    | cons y ys =>
      cases c with
      | nil => simp [lexLt] at hbc
      | cons z zs =>
        simp only [lexLt] at hab hbc ⊢
        split_ifs at hab hbc ⊢ <;> try rfl
        all_goals (try omega)
        all_goals (try exact ih ys zs hab hbc)

theorem lexLt_asymm : ∀ a b : PyStr, lexLt a b = true → lexLt b a = false := by
  intro a
  induction a with
  | nil =>
    intro b hab
    cases b with
    | nil => simp [lexLt] at hab
    | cons y ys => rfl
  | cons x xs ih =>
    intro b hab
    cases b with
    | nil => simp [lexLt] at hab
    | cons y ys =>
      simp only [lexLt] at hab ⊢
      split_ifs at hab ⊢ <;> try rfl
      all_goals (try omega)
      all_goals (try exact ih ys hab)

theorem lexLt_eq_of_not : ∀ a b : PyStr, lexLt a b = false → lexLt b a = false →
    a = b := by
  intro a
  induction a with
  | nil =>
    intro b hab _
    cases b with
    | nil => rfl
    | cons y ys => simp [lexLt] at hab
  | cons x xs ih =>
    intro b hab hba
    cases b with
    | nil => simp [lexLt] at hba
    | cons y ys =>
      simp only [lexLt] at hab hba
      split_ifs at hab hba <;> try omega
      subst_vars
      rw [ih ys hab hba]

/-! ## Lemmas about the stable sort modelling `ORDER BY` -/

theorem insertBy_perm {α : Type} (lt : α → α → Bool) (x : α) (l : List α) :
    List.Perm (insertBy lt x l) (x :: l) := by
  induction l with
  | nil => exact List.Perm.refl _
  | cons y ys ih =>
    simp only [insertBy]
    split
    · exact List.Perm.refl _
    · exact (ih.cons y).trans (List.Perm.swap x y ys)

theorem sortBy_go_perm {α : Type} (lt : α → α → Bool) :
    ∀ (l acc : List α),
      List.Perm (l.foldl (fun acc x => insertBy lt x acc) acc) (acc ++ l) := by
  intro l
  induction l with
  | nil => intro acc; simp
  | cons x xs ih =>
    intro acc
    simp only [List.foldl_cons]
    refine ((ih (insertBy lt x acc)).trans ?_)
    refine (((insertBy_perm lt x acc).append_right xs).trans ?_)
    exact (List.perm_middle).symm

theorem sortBy_perm {α : Type} (lt : α → α → Bool) (l : List α) :
    List.Perm (sortBy lt l) l := by
  simpa using sortBy_go_perm lt l []

theorem mem_insertBy {α : Type} (lt : α → α → Bool) (x : α) (l : List α) (z : α) :
    z ∈ insertBy lt x l ↔ z = x ∨ z ∈ l := by
  rw [(insertBy_perm lt x l).mem_iff, List.mem_cons]

theorem insertBy_pairwise {α : Type} (lt : α → α → Bool)
    (htr : ∀ a b c, lt a b = true → lt b c = true → lt a c = true)
    (hirr : ∀ a, lt a a = false)
    (x : α) (l : List α) (hl : l.Pairwise (fun a b => lt b a = false)) :
    (insertBy lt x l).Pairwise (fun a b => lt b a = false) := by
  have hasym : ∀ a b, lt a b = true → lt b a = false := by
    intro a b hab
    cases hba : lt b a with
    | false => rfl
    | true =>
      have h2 := htr a b a hab hba
      rw [hirr a] at h2
      simp at h2
  induction l with
  | nil => simp [insertBy]
  | cons y ys ih =>
    rw [List.pairwise_cons] at hl
    obtain ⟨hy, hys⟩ := hl
    simp only [insertBy]
    split
    · -- x precedes y : x :: y :: ys
      rename_i hxy
      refine List.Pairwise.cons ?_ (List.Pairwise.cons hy hys)
      intro z hz
      rcases List.mem_cons.mp hz with rfl | hzys
      · exact hasym x z hxy
      · cases hzx : lt z x with
        | false => rfl
        | true =>
          have h2 := htr z x y hzx hxy
          rw [hy z hzys] at h2
          simp at h2
    · -- y kept in front
      rename_i hxy
      refine List.Pairwise.cons ?_ (ih hys)
      intro z hz
      rcases (mem_insertBy lt x ys z).mp hz with rfl | hzys
      · simpa using hxy
      · exact hy z hzys

theorem sortBy_pairwise {α : Type} (lt : α → α → Bool)
    (htr : ∀ a b c, lt a b = true → lt b c = true → lt a c = true)
    (hirr : ∀ a, lt a a = false) (l : List α) :
    (sortBy lt l).Pairwise (fun a b => lt b a = false) := by
  suffices h : ∀ (l acc : List α), acc.Pairwise (fun a b => lt b a = false) →
      (l.foldl (fun acc x => insertBy lt x acc) acc).Pairwise
        (fun a b => lt b a = false) by
    exact h l [] (List.Pairwise.nil)
  intro l
  induction l with
  | nil => intro acc hacc; simpa using hacc
  | cons x xs ih =>
    intro acc hacc
    simp only [List.foldl_cons]
    exact ih _ (insertBy_pairwise lt htr hirr x acc hacc)

/-! ## Case-variance of the normalisation -/

theorem lowerCp_eq_cases {a b : Nat} (h : lowerCp a = lowerCp b) :
    a = b ∨ ((65 ≤ a ∧ a ≤ 90 ∨ 97 ≤ a ∧ a ≤ 122) ∧
             (65 ≤ b ∧ b ≤ 90 ∨ 97 ≤ b ∧ b ≤ 122) ∧ upperCp a = upperCp b) := by
  unfold lowerCp at h
  unfold upperCp
  split_ifs at h ⊢ <;> omega

theorem isAlphaCp_iff (n : Nat) :
    isAlphaCp n = true ↔ (65 ≤ n ∧ n ≤ 90 ∨ 97 ≤ n ∧ n ≤ 122) := by
  unfold isAlphaCp
  split_ifs <;> simp <;> omega

theorem isSpaceCp_of_alpha {n : Nat} (h : 65 ≤ n ∧ n ≤ 90 ∨ 97 ≤ n ∧ n ≤ 122) :
    isSpaceCp n = false := by
  simp only [isSpaceCp, Bool.or_eq_false_iff, decide_eq_false_iff_not]
  omega

theorem isSpaceCp_congr {a b : Nat} (h : lowerCp a = lowerCp b) :
    isSpaceCp a = isSpaceCp b := by
  rcases lowerCp_eq_cases h with rfl | ⟨ha, hb, _⟩
  · rfl
  · rw [isSpaceCp_of_alpha ha, isSpaceCp_of_alpha hb]

theorem isAlphaCp_congr {a b : Nat} (h : lowerCp a = lowerCp b) :
    isAlphaCp a = isAlphaCp b := by
  rcases lowerCp_eq_cases h with rfl | ⟨ha, hb, _⟩
  · rfl
  · rw [(isAlphaCp_iff a).mpr ha, (isAlphaCp_iff b).mpr hb]

theorem upperCp_congr {a b : Nat} (h : lowerCp a = lowerCp b) :
    upperCp a = upperCp b := by
  rcases lowerCp_eq_cases h with rfl | ⟨_, _, hu⟩
  · rfl
  · exact hu

theorem eq_of_lowerCp_of_not_alpha {a b : Nat} (h : lowerCp a = lowerCp b)
    (ha : isAlphaCp a = false) : a = b := by
  rcases lowerCp_eq_cases h with rfl | ⟨hrange, _, _⟩
  · rfl
  · rw [(isAlphaCp_iff a).mpr hrange] at ha
    cases ha

theorem caseVariant_stripTrail {s t : PyStr} (h : caseVariant s t) :
    caseVariant (stripTrail s) (stripTrail t) := by
  induction h with
  | nil => exact List.Forall₂.nil
  | cons hcd htail ih =>
    rename_i c d cs ds
    have hnil : stripTrail cs = [] ↔ stripTrail ds = [] := by
      constructor
      · intro hn; rw [hn] at ih; exact List.forall₂_nil_left_iff.mp ih
      · intro hn; rw [hn] at ih; exact List.forall₂_nil_right_iff.mp ih
    simp only [stripTrail]
    by_cases hd : stripTrail ds = [] ∧ isSpaceCp d
    · have hc : stripTrail cs = [] ∧ isSpaceCp c :=
        ⟨hnil.mpr hd.1, by rw [isSpaceCp_congr hcd]; exact hd.2⟩
      rw [if_pos hc, if_pos hd]
      exact List.Forall₂.nil
    · have hc : ¬(stripTrail cs = [] ∧ isSpaceCp c) := by
        intro hcc
        exact hd ⟨hnil.mp hcc.1, by rw [← isSpaceCp_congr hcd]; exact hcc.2⟩
      rw [if_neg hc, if_neg hd]
      exact List.Forall₂.cons hcd ih

theorem caseVariant_stripLead {s t : PyStr} (h : caseVariant s t) :
    caseVariant (stripLead s) (stripLead t) := by
  induction h with
  | nil => exact List.Forall₂.nil
  | cons hcd htail ih =>
    rename_i c d cs ds
    simp only [stripLead]
    by_cases hc : isSpaceCp c = true
    · rw [if_pos hc, if_pos (by rw [← isSpaceCp_congr hcd]; exact hc)]
      exact ih
    · rw [if_neg hc, if_neg (by rw [← isSpaceCp_congr hcd]; exact hc)]
      exact List.Forall₂.cons hcd htail

theorem caseVariant_pyStrip {s t : PyStr} (h : caseVariant s t) :
    caseVariant (pyStrip s) (pyStrip t) :=
  caseVariant_stripLead (caseVariant_stripTrail h)

theorem titleAux_congr {s t : PyStr} (h : caseVariant s t) :
    ∀ flag, titleAux flag s = titleAux flag t := by
  induction h with
  | nil => intro flag; rfl
  | cons hcd htail ih =>
    rename_i c d cs ds
    intro flag
    have ha : isAlphaCp c = isAlphaCp d := isAlphaCp_congr hcd
    simp only [titleAux, ha, hcd, upperCp_congr hcd]
    split_ifs with h1 h2
    · rw [ih true]
    · rw [ih true]
    · rw [eq_of_lowerCp_of_not_alpha hcd (by rw [ha]; simpa using h1), ih false]

/-- The `add_member` normalisation identifies names differing only in
letter case. -/
theorem caseVariant_normalize {s t : PyStr} (h : caseVariant s t) :
    pyTitle (pyStrip s) = pyTitle (pyStrip t) :=
  titleAux_congr (caseVariant_pyStrip h) false

/-! ## Destructuring the operations -/

theorem addMember_ok {db db' : DB} {n : PyStr} {es : Bool} {e : Rat}
    (h : addMember db n es e = .ok db') :
    pyTitle (pyStrip n) ≠ [] ∧
    db' = { db with members :=
      if db.members.any (fun m => m.name = pyTitle (pyStrip n)) then db.members
      else db.members ++
        [{ name := pyTitle (pyStrip n)
           earning_status := if es then 1 else 0
           earnings := e }] } := by
  by_cases hn : pyTitle (pyStrip n) = []
  · simp [addMember, hn] at h
  · refine ⟨hn, ?_⟩
    simp only [addMember, if_neg hn, Except.ok.injEq] at h
    exact h.symm

theorem addExpense_ok {db db' : DB} {p : PyStr} {a : Rat} {cp c et : PyStr}
    {st d : Option PyStr} {dt : PyStr}
    (h : addExpense db p a cp c et st d dt = .ok db') :
    pyTitle (pyStrip p) ≠ [] ∧ ¬(a ≤ 0) ∧
    db' = { db with
      expenses := db.expenses ++
        [{ id := db.nextExpenseId
           person := pyTitle (pyStrip p)
           description := pyOrEmpty d
           amount := a
           category_period := cp
           category := c
           expense_type := et
           sub_type := pyOrEmpty st
           date := dt
           created_at := db.now }]
      nextExpenseId := db.nextExpenseId + 1 } := by
  by_cases hp : pyTitle (pyStrip p) = []
  · simp [addExpense, hp] at h
  · by_cases ha : a ≤ 0
    · simp [addExpense, hp, ha] at h
    · refine ⟨hp, ha, ?_⟩
      simp only [addExpense, if_neg hp, if_neg ha, Except.ok.injEq] at h
      exact h.symm

theorem updateMember_row_name (n : PyStr) (es : Bool) (e : Rat) (m : MemberRow) :
    (if m.name = pyTitle n then
        { m with earning_status := if es then 1 else 0
                 earnings := e }
      else m).name = m.name := by
  split <;> rfl

/-! ## Invariants of the reachable states -/

theorem reachable_names_nodup {db : DB} (h : Reachable db) :
    db.members.Pairwise (fun a b => a.name ≠ b.name) := by
  induction h with
  | init => simp [initDB]
  | add_member hr hok ih =>
    rename_i db db' n es e
    obtain ⟨hn, rfl⟩ := addMember_ok hok
    by_cases hany : db.members.any (fun m => m.name = pyTitle (pyStrip n)) = true
    · simpa [hany] using ih
    · rw [if_neg hany]
      rw [List.pairwise_append]
      refine ⟨ih, List.pairwise_singleton _ _, ?_⟩
      intro a ha b hb
      rw [List.mem_singleton] at hb
      subst hb
      simp only [List.any_eq_true, not_exists, not_and] at hany
      intro hEq
      exact absurd (by simpa using (hany a ha)) (by simp [hEq])
  | update_member hr ih =>
    rename_i db n es e
    simp only [updateMember]
    rw [List.pairwise_map]
    refine ih.imp ?_
    intro a b hab
    rw [updateMember_row_name, updateMember_row_name]
    exact hab
  | delete_member hr ih =>
    rename_i db n
    simp only [deleteMember]
    exact List.Pairwise.sublist (List.filter_sublist _) ih
  | add_expense hr hok ih =>
    rename_i db db' p a cp c et st d dt
    obtain ⟨_, _, rfl⟩ := addExpense_ok hok
    simpa using ih
  | delete_expense hr ih => simpa [deleteExpense] using ih
  | tick hr ih => simpa [tick] using ih

theorem reachable_status_bit {db : DB} (h : Reachable db) :
    ∀ m ∈ db.members, m.earning_status = 0 ∨ m.earning_status = 1 := by
  induction h with
  | init => simp [initDB]
  | add_member hr hok ih =>
    rename_i db db' n es e
    obtain ⟨hn, rfl⟩ := addMember_ok hok
    intro m hm
    by_cases hany : db.members.any (fun m => m.name = pyTitle (pyStrip n)) = true
    · rw [if_pos hany] at hm
      exact ih m hm
    · rw [if_neg hany] at hm
      rcases List.mem_append.mp hm with hm0 | hm1
      · exact ih m hm0
      · rw [List.mem_singleton] at hm1
        subst hm1
        cases es <;> simp
  | update_member hr ih =>
    rename_i db n es e
    intro m hm
    simp only [updateMember] at hm
    obtain ⟨m0, hm0, rfl⟩ := List.mem_map.mp hm
    split
    · cases es <;> simp
    · exact ih m0 hm0
  | delete_member hr ih =>
    rename_i db n
    intro m hm
    exact ih m (List.mem_of_mem_filter hm)
  | add_expense hr hok ih =>
    rename_i db db' p a cp c et st d dt
    obtain ⟨_, _, rfl⟩ := addExpense_ok hok
    exact ih
  | delete_expense hr ih => exact ih
  | tick hr ih => exact ih

theorem reachableNN_earnings_nonneg {db : DB} (h : ReachableNN db) :
    ∀ m ∈ db.members, 0 ≤ m.earnings := by
  induction h with
  | init => simp [initDB]
  | add_member hr he hok ih =>
    rename_i db db' n es e
    obtain ⟨hn, rfl⟩ := addMember_ok hok
    intro m hm
    by_cases hany : db.members.any (fun m => m.name = pyTitle (pyStrip n)) = true
    · rw [if_pos hany] at hm
      exact ih m hm
    · rw [if_neg hany] at hm
      rcases List.mem_append.mp hm with hm0 | hm1
      · exact ih m hm0
      · rw [List.mem_singleton] at hm1
        subst hm1
        exact he
  | update_member hr he ih =>
    rename_i db n es e
    intro m hm
    simp only [updateMember] at hm
    obtain ⟨m0, hm0, rfl⟩ := List.mem_map.mp hm
    split
    · exact he
    · exact ih m0 hm0
  | delete_member hr ih =>
    rename_i db n
    intro m hm
    exact ih m (List.mem_of_mem_filter hm)
  | add_expense hr hok ih =>
    rename_i db db' p a cp c et st d dt
    obtain ⟨_, _, rfl⟩ := addExpense_ok hok
    exact ih
  | delete_expense hr ih => exact ih
  | tick hr ih => exact ih

/-! ## Counting and stability helpers -/

theorem countP_name_eq_one {l : List MemberRow} {nm : PyStr}
    (hpw : l.Pairwise (fun a b => a.name ≠ b.name)) {m : MemberRow}
    (hm : m ∈ l) (hname : m.name = nm) :
    l.countP (fun x => decide (x.name = nm)) = 1 := by
  induction l with
  | nil => cases hm
  | cons y ys ih =>
    rw [List.pairwise_cons] at hpw
    obtain ⟨hy, hys⟩ := hpw
    rcases List.mem_cons.mp hm with rfl | hmys
    · rw [List.countP_cons]
      have h0 : ys.countP (fun x => decide (x.name = nm)) = 0 := by
        rw [List.countP_eq_zero]
        intro a ha
        simp only [decide_eq_true_eq]
        intro hEq
        exact hy a ha (hname.trans hEq.symm)
      simp [h0, hname]
    · have hyn : ¬(y.name = nm) := fun hEq => hy m hmys (hEq.trans hname.symm)
      rw [List.countP_cons]
      simp [hyn, ih hys hmys]

theorem insertBy_filter {α : Type} (lt : α → α → Bool) (p : α → Bool)
    (hcongr : ∀ a b, p a = true → p b = true → ∀ c, lt a c = lt b c)
    (hpirr : ∀ a b, p a = true → p b = true → lt a b = false)
    (x : α) (l : List α) (hl : l.Pairwise (fun a b => lt b a = false)) :
    (insertBy lt x l).filter p =
      if p x then l.filter p ++ [x] else l.filter p := by
  induction l with
  | nil => cases hpx : p x <;> simp [insertBy, hpx]
  | cons y ys ih =>
    rw [List.pairwise_cons] at hl
    obtain ⟨hy, hys⟩ := hl
    simp only [insertBy]
    by_cases hxy : lt x y = true
    · rw [if_pos hxy]
      cases hpx : p x with
      | false => simp [List.filter_cons, hpx]
      | true =>
        have hnone : ∀ z ∈ y :: ys, p z = false := by
          intro z hz
          cases hpz : p z with
          | false => rfl
          | true =>
            exfalso
            rcases List.mem_cons.mp hz with rfl | hzys
            · rw [hpirr x z hpx hpz] at hxy
              cases hxy
            · have h1 := hcongr x z hpx hpz y
              rw [hxy, hy z hzys] at h1
              cases h1
        have hfil : (y :: ys).filter p = [] := by
          rw [List.filter_eq_nil_iff]
          intro a ha
          simp [hnone a ha]
        simp [List.filter_cons, hpx, hnone y (by simp), hfil]
    · rw [if_neg hxy]
      have ihe := ih hys
      cases hpx : p x <;> cases hpy : p y <;>
        simp [List.filter_cons, hpx, hpy, ihe]

theorem sortBy_filter {α : Type} (lt : α → α → Bool) (p : α → Bool)
    (htr : ∀ a b c, lt a b = true → lt b c = true → lt a c = true)
    (hirr : ∀ a, lt a a = false)
    (hcongr : ∀ a b, p a = true → p b = true → ∀ c, lt a c = lt b c)
    (hpirr : ∀ a b, p a = true → p b = true → lt a b = false)
    (l : List α) :
    (sortBy lt l).filter p = l.filter p := by
  suffices h : ∀ (l acc : List α), acc.Pairwise (fun a b => lt b a = false) →
      (l.foldl (fun acc x => insertBy lt x acc) acc).filter p =
        acc.filter p ++ l.filter p by
    simpa using h l [] List.Pairwise.nil
  intro l
  induction l with
  | nil => intro acc hacc; simp
  | cons x xs ih =>
    intro acc hacc
    simp only [List.foldl_cons]
    rw [ih _ (insertBy_pairwise lt htr hirr x acc hacc)]
    rw [insertBy_filter lt p hcongr hpirr x acc hacc]
    cases hpx : p x <;> simp [List.filter_cons, hpx, List.append_assoc]

/-! ## The expense sort key -/

theorem expLt_irrefl (a : ExpenseRow) : expLt a a = false := by
  simp [expLt, lexLt_irrefl]

theorem expLt_iff (a b : ExpenseRow) :
    expLt a b = true ↔
      (lexLt b.date a.date = true ∨
       (a.date = b.date ∧ b.created_at < a.created_at)) := by
  unfold expLt
  split_ifs with h1 h2 <;> simp_all

theorem expLt_trans (a b c : ExpenseRow) (hab : expLt a b = true)
    (hbc : expLt b c = true) : expLt a c = true := by
  rw [expLt_iff] at hab hbc ⊢
  rcases hab with h1 | ⟨h1, h2⟩
  · rcases hbc with h3 | ⟨h3, h4⟩
    · exact Or.inl (lexLt_trans _ _ _ h3 h1)
    · rw [h3] at h1
      exact Or.inl h1
  · rcases hbc with h3 | ⟨h3, h4⟩
    · rw [← h1] at h3
      exact Or.inl h3
    · exact Or.inr ⟨h1.trans h3, h4.trans h2⟩

theorem mem_sortBy {α : Type} (lt : α → α → Bool) (l : List α) (z : α) :
    z ∈ sortBy lt l ↔ z ∈ l :=
  (sortBy_perm lt l).mem_iff

theorem expLt_congr_left {a b : ExpenseRow} (hd : a.date = b.date)
    (hc : a.created_at = b.created_at) (c : ExpenseRow) : expLt a c = expLt b c := by
  unfold expLt
  rw [hd, hc]

theorem expLt_same_key {a b : ExpenseRow} (hd : a.date = b.date)
    (hc : a.created_at = b.created_at) : expLt a b = false := by
  unfold expLt
  rw [hd, hc]
  simp [lexLt_irrefl]

/-! ## The claims -/

/-- C1.  For every state of the members table, `total_earnings()` returns the
sum of the `earnings` column over all members unconditionally — including
members whose `earning_status` is false, since the summand never consults
that column — and returns 0.0 when the members table is empty.  The model's
`total_earnings` is a total function, so no state makes it raise. -/
theorem claim_C1_total_earnings_unconditional_sum (db : DB) :
    total_earnings db = (db.members.map (fun m => m.earnings)).sum ∧
    total_earnings { db with members := [] } = 0 := by
  have hperm : List.Perm ((getMembersDf db).map fun m => m.earnings)
      (db.members.map fun m => m.earnings) :=
    (sortBy_perm _ db.members).map _
  constructor
  · simp only [total_earnings]
    split_ifs with hemp
    · have hnil : getMembersDf db = [] := by simpa using hemp
      rw [hnil] at hperm
      simp only [List.map_nil] at hperm
      rw [List.nil_perm] at hperm
      rw [hperm]
      rfl
    · exact hperm.sum_eq
  · rfl

/-- C2.  `add_member` raises `ValueError` ("ValidationError") whenever the
name is empty after normalisation, and `add_expense` raises whenever the
person is empty after normalisation or the amount is ≤ 0.  In the model a
raised error is an `Except.error` carrying no successor state: the raise
happens before a connection is opened, so neither table is touched. -/
theorem claim_C2_validation_errors (db : DB) (name person : PyStr) (es : Bool)
    (e amt : Rat) (cp c et : PyStr) (st d : Option PyStr) (dt : PyStr) :
    (pyTitle (pyStrip name) = [] →
      addMember db name es e = .error "Name cannot be empty.") ∧
    (pyTitle (pyStrip person) = [] →
      addExpense db person amt cp c et st d dt =
        .error "Expense must be associated with a person.") ∧
    (pyTitle (pyStrip person) ≠ [] → amt ≤ 0 →
      addExpense db person amt cp c et st d dt =
        .error "Amount must be positive.") := by
  refine ⟨?_, ?_, ?_⟩
  · intro h
    simp [addMember, h]
  · intro h
    simp [addExpense, h]
  · intro h1 h2
    simp [addExpense, h1, h2]

/-- Witness for C2 at concrete inputs: a whitespace-only name, an empty
person, and a negative amount. -/
theorem claim_C2_witness :
    addMember initDB (strCp "   ") false 0 = .error "Name cannot be empty." ∧
    addExpense initDB (strCp "") 5 (strCp "monthly") (strCp "Food")
        (strCp "small") none none (strCp "2024-01-15") =
      .error "Expense must be associated with a person." ∧
    addExpense initDB (strCp "John") (-5) (strCp "monthly") (strCp "Food")
        (strCp "small") none none (strCp "2024-01-15") =
      .error "Amount must be positive." :=
  ⟨(claim_C2_validation_errors initDB (strCp "   ") (strCp "John") false 0 5
      (strCp "monthly") (strCp "Food") (strCp "small") none none
      (strCp "2024-01-15")).1 (by decide),
   (claim_C2_validation_errors initDB (strCp "   ") (strCp "") false 0 5
      (strCp "monthly") (strCp "Food") (strCp "small") none none
      (strCp "2024-01-15")).2.1 (by decide),
   (claim_C2_validation_errors initDB (strCp "   ") (strCp "John") false 0 (-5)
      (strCp "monthly") (strCp "Food") (strCp "small") none none
      (strCp "2024-01-15")).2.2 (by decide) (by decide)⟩

/-- C8.  `delete_member` touches only the members table: the expense rows —
including every row referencing the deleted member's name — and their order
in `list_expenses` are untouched, at most the name-matching member rows are
removed, and every member with a different name survives (no cascade). -/
theorem claim_C8_delete_member_no_cascade (db : DB) (name : PyStr) :
    (deleteMember db name).expenses = db.expenses ∧
    getExpensesDf (deleteMember db name) = getExpensesDf db ∧
    (∀ m ∈ (deleteMember db name).members, m ∈ db.members) ∧
    (∀ m ∈ db.members, m.name ≠ name → m ∈ (deleteMember db name).members) ∧
    (∀ m ∈ (deleteMember db name).members, m.name ≠ name) := by
  refine ⟨rfl, rfl, ?_, ?_, ?_⟩
  · intro m hm
    exact List.mem_of_mem_filter hm
  · intro m hm hne
    refine List.mem_filter.mpr ⟨hm, ?_⟩
    simpa using hne
  · intro m hm
    have h2 := (List.mem_filter.mp hm).2
    simpa using h2

/-- Witness for C8: deleting "John" keeps his expense row and keeps "Jane". -/
theorem claim_C8_witness :
    (deleteMember
        { members := [{ name := strCp "John", earning_status := 1, earnings := 5000 },
                      { name := strCp "Jane", earning_status := 0, earnings := 0 }],
          expenses := [{ id := 1, person := strCp "John", description := [],
                         amount := 150, category_period := strCp "monthly",
                         category := strCp "Food", expense_type := strCp "small",
                         sub_type := [], date := strCp "2024-01-15",
                         created_at := 0 }],
          nextExpenseId := 2, now := 0 }
        (strCp "John")).expenses =
      [{ id := 1, person := strCp "John", description := [],
         amount := 150, category_period := strCp "monthly",
         category := strCp "Food", expense_type := strCp "small",
         sub_type := [], date := strCp "2024-01-15", created_at := 0 }] ∧
    ({ name := strCp "Jane", earning_status := 0, earnings := 0 } : MemberRow) ∈
      (deleteMember
        { members := [{ name := strCp "John", earning_status := 1, earnings := 5000 },
                      { name := strCp "Jane", earning_status := 0, earnings := 0 }],
          expenses := [{ id := 1, person := strCp "John", description := [],
                         amount := 150, category_period := strCp "monthly",
                         category := strCp "Food", expense_type := strCp "small",
                         sub_type := [], date := strCp "2024-01-15",
                         created_at := 0 }],
          nextExpenseId := 2, now := 0 }
        (strCp "John")).members :=
  ⟨(claim_C8_delete_member_no_cascade _ (strCp "John")).1,
   (claim_C8_delete_member_no_cascade _ (strCp "John")).2.2.2.1
     { name := strCp "Jane", earning_status := 0, earnings := 0 }
     (by decide) (by decide)⟩

/-- C9.  `add_expense` stores the empty string whenever `None` is passed for
the optional `description` or `sub_type` (`description or ""`,
`sub_type or ""`), so the inserted row — as returned by the next
`list_expenses` — carries `""`, never a null, in those columns. -/
theorem claim_C9_none_stored_empty (db : DB) (person : PyStr) (amount : Rat)
    (cp c et dt : PyStr) (db' : DB)
    (h : addExpense db person amount cp c et none none dt = .ok db') :
    ∃ r ∈ getExpensesDf db', r.id = db.nextExpenseId ∧
      r.description = [] ∧ r.sub_type = [] := by
  obtain ⟨hp, ha, rfl⟩ := addExpense_ok h
  refine ⟨{ id := db.nextExpenseId, person := pyTitle (pyStrip person),
            description := pyOrEmpty none, amount := amount,
            category_period := cp, category := c, expense_type := et,
            sub_type := pyOrEmpty none, date := dt, created_at := db.now },
          ?_, rfl, rfl, rfl⟩
  unfold getExpensesDf
  rw [mem_sortBy]
  simp

/-- Witness for C9 at a concrete insert with `None` description/sub_type. -/
theorem claim_C9_witness :
    ∃ r ∈ getExpensesDf
        { members := [],
          expenses := [{ id := 1, person := strCp "John", description := [],
                         amount := 150, category_period := strCp "monthly",
                         category := strCp "Food", expense_type := strCp "big",
                         sub_type := [], date := strCp "2024-02-01",
                         created_at := 0 }],
          nextExpenseId := 2, now := 0 },
      r.id = 1 ∧ r.description = [] ∧ r.sub_type = [] :=
  claim_C9_none_stored_empty initDB (strCp "John") 150 (strCp "monthly")
    (strCp "Food") (strCp "big") (strCp "2024-02-01") _ (by decide)

/-- C10.  In every reachable state every stored `earning_status` is exactly
0 or 1: both `add_member` and `update_member` store
`int(bool(earning_status))`, rows enter the table only through `add_member`
(the schema default 0 is itself in range and never exercised), and the
other operations never alter the column. -/
theorem claim_C10_earning_status_bit (db : DB) (h : Reachable db) :
    ∀ m ∈ db.members, m.earning_status = 0 ∨ m.earning_status = 1 :=
  reachable_status_bit h

/-- Witness for C10 on a concrete reachable state with one member. -/
theorem claim_C10_witness :
    ({ name := strCp "John", earning_status := 1, earnings := 0 } : MemberRow).earning_status = 0 ∨
    ({ name := strCp "John", earning_status := 1, earnings := 0 } : MemberRow).earning_status = 1 :=
  claim_C10_earning_status_bit
    { members := [{ name := strCp "John", earning_status := 1, earnings := 0 }],
      expenses := [], nextExpenseId := 1, now := 0 }
    (@Reachable.add_member initDB
      { members := [{ name := strCp "John", earning_status := 1, earnings := 0 }],
        expenses := [], nextExpenseId := 1, now := 0 }
      (strCp "John") true 0 Reachable.init (by decide))
    { name := strCp "John", earning_status := 1, earnings := 0 }
    (by decide)

/-- C5 counterexample.  Passing `description=None` (and `sub_type=None`) to
`add_expense` stores `""`: the row that `list_expenses` returns carries the
empty string, which is not the `None` that was passed, so not every field
round-trips unmodified. -/
theorem claim_C5_counterexample :
    addExpense initDB (strCp "John") 150 (strCp "monthly") (strCp "Food")
        (strCp "small") none none (strCp "2024-01-15") =
      .ok { members := [],
            expenses := [{ id := 1, person := strCp "John", description := [],
                           amount := 150, category_period := strCp "monthly",
                           category := strCp "Food", expense_type := strCp "small",
                           sub_type := [], date := strCp "2024-01-15",
                           created_at := 0 }],
            nextExpenseId := 2, now := 0 } ∧
    (getExpensesDf
        { members := [],
          expenses := [{ id := 1, person := strCp "John", description := [],
                         amount := 150, category_period := strCp "monthly",
                         category := strCp "Food", expense_type := strCp "small",
                         sub_type := [], date := strCp "2024-01-15",
                         created_at := 0 }],
          nextExpenseId := 2, now := 0 }).map (fun r => r.description) = [[]] ∧
    some ([] : PyStr) ≠ (none : Option PyStr) :=
  ⟨by decide, by decide, by decide⟩

/-- C5 (amended).  For every valid `add_expense`, the inserted row as
returned by the next `list_expenses` carries every passed field unmodified,
except that the person name is normalised and that the optional
`description`/`sub_type` come back as `x or ""` — i.e. `None` becomes the
empty string (see the counterexample); every other value, including `""`
and all non-empty strings, is unchanged. -/
theorem claim_C5_roundtrip_amended (db : DB) (person : PyStr) (amount : Rat)
    (cp c et : PyStr) (st d : Option PyStr) (dt : PyStr) (db' : DB)
    (h : addExpense db person amount cp c et st d dt = .ok db') :
    ∃ r ∈ getExpensesDf db', r.id = db.nextExpenseId ∧
      r.person = pyTitle (pyStrip person) ∧ r.amount = amount ∧
      r.category_period = cp ∧ r.category = c ∧ r.expense_type = et ∧
      r.sub_type = pyOrEmpty st ∧ r.description = pyOrEmpty d ∧
      r.date = dt := by
  obtain ⟨hp, ha, rfl⟩ := addExpense_ok h
  refine ⟨{ id := db.nextExpenseId, person := pyTitle (pyStrip person),
            description := pyOrEmpty d, amount := amount,
            category_period := cp, category := c, expense_type := et,
            sub_type := pyOrEmpty st, date := dt, created_at := db.now },
          ?_, rfl, rfl, rfl, rfl, rfl, rfl, rfl, rfl, rfl⟩
  unfold getExpensesDf
  rw [mem_sortBy]
  simp

/-- Witness for C5 (amended) at a concrete insert with every field set. -/
theorem claim_C5_witness :
    ∃ r ∈ getExpensesDf
        { members := [],
          expenses := [{ id := 1, person := strCp "Jane",
                         description := strCp "Groceries", amount := 150,
                         category_period := strCp "monthly",
                         category := strCp "Food", expense_type := strCp "small",
                         sub_type := strCp "veg", date := strCp "2024-01-15",
                         created_at := 0 }],
          nextExpenseId := 2, now := 0 },
      r.id = 1 ∧ r.person = pyTitle (pyStrip (strCp " jane ")) ∧
      r.amount = 150 ∧ r.category_period = strCp "monthly" ∧
      r.category = strCp "Food" ∧ r.expense_type = strCp "small" ∧
      r.sub_type = pyOrEmpty (some (strCp "veg")) ∧
      r.description = pyOrEmpty (some (strCp "Groceries")) ∧
      r.date = strCp "2024-01-15" :=
  claim_C5_roundtrip_amended initDB (strCp " jane ") 150 (strCp "monthly")
    (strCp "Food") (strCp "small") (some (strCp "veg"))
    (some (strCp "Groceries")) (strCp "2024-01-15") _ (by decide)

/-- C3.  Member names are unique in every reachable state; after a
successful `add_member`, `list_members` holds exactly one row whose name is
the normalised (`.strip().title()`) input; and a second `add_member` with
the same name in any letter case returns successfully with the state
unchanged (`INSERT OR IGNORE` drops the duplicate): same member list, same
count, no error. -/
theorem claim_C3_unique_names :
    (∀ db : DB, Reachable db →
      db.members.Pairwise (fun a b => a.name ≠ b.name)) ∧
    (∀ (db : DB) (name : PyStr) (es : Bool) (e : Rat) (db' : DB),
      Reachable db → addMember db name es e = .ok db' →
      (getMembersDf db').countP
        (fun m => decide (m.name = pyTitle (pyStrip name))) = 1) ∧
    (∀ (db0 db' : DB) (name name2 : PyStr) (es es2 : Bool) (e e2 : Rat),
      caseVariant name name2 → addMember db0 name es e = .ok db' →
      addMember db' name2 es2 e2 = .ok db') := by
  refine ⟨fun db h => reachable_names_nodup h, ?_, ?_⟩
  · intro db name es e db' hr hok
    have hr' : Reachable db' := Reachable.add_member hr hok
    obtain ⟨hn, hdbeq⟩ := addMember_ok hok
    have hmem : ∃ m ∈ db'.members, m.name = pyTitle (pyStrip name) := by
      subst hdbeq
      by_cases hany :
          db.members.any (fun m => m.name = pyTitle (pyStrip name)) = true
      · rw [List.any_eq_true] at hany
        obtain ⟨m, hm, hp⟩ := hany
        refine ⟨m, ?_, of_decide_eq_true hp⟩
        show m ∈ (if _ then db.members else _)
        rw [if_pos (by rw [List.any_eq_true]; exact ⟨m, hm, hp⟩)]
        exact hm
      · refine ⟨{ name := pyTitle (pyStrip name)
                  earning_status := if es then 1 else 0
                  earnings := e }, ?_, rfl⟩
        show _ ∈ (if _ then db.members else _)
        rw [if_neg hany]
        simp
    obtain ⟨m, hm, hmn⟩ := hmem
    unfold getMembersDf
    rw [(sortBy_perm (fun a b : MemberRow => lexLt a.name b.name)
          db'.members).countP_eq]
    exact countP_name_eq_one (reachable_names_nodup hr') hm hmn
  · intro db0 db' name name2 es es2 e e2 hcv hok
    obtain ⟨hn, hdbeq⟩ := addMember_ok hok
    have hkey : pyTitle (pyStrip name2) = pyTitle (pyStrip name) :=
      (caseVariant_normalize hcv).symm
    have hn2 : ¬(pyTitle (pyStrip name2) = []) := by rw [hkey]; exact hn
    have hmem :
        db'.members.any (fun m => m.name = pyTitle (pyStrip name2)) = true := by
      rw [List.any_eq_true]
      subst hdbeq
      by_cases hany :
          db0.members.any (fun m => m.name = pyTitle (pyStrip name)) = true
      · rw [List.any_eq_true] at hany
        obtain ⟨m, hm, hp⟩ := hany
        refine ⟨m, ?_, by rw [hkey]; exact hp⟩
        show m ∈ (if _ then db0.members else _)
        rw [if_pos (by rw [List.any_eq_true]; exact ⟨m, hm, hp⟩)]
        exact hm
      · refine ⟨{ name := pyTitle (pyStrip name)
                  earning_status := if es then 1 else 0
                  earnings := e }, ?_, by simp [hkey]⟩
        show _ ∈ (if _ then db0.members else _)
        rw [if_neg hany]
        simp
    simp only [addMember, if_neg hn2]
    rw [if_pos hmem]

/-- Witness for C3: concrete uniqueness after inserting "john", and the
case-variant duplicate "JOHN" leaving the state unchanged. -/
theorem claim_C3_witness :
    initDB.members.Pairwise (fun a b => a.name ≠ b.name) ∧
    (getMembersDf
        { members := [{ name := strCp "John", earning_status := 0,
                        earnings := 5000 }],
          expenses := [], nextExpenseId := 1, now := 0 }).countP
      (fun m => decide (m.name = pyTitle (pyStrip (strCp "john")))) = 1 ∧
    addMember
        { members := [{ name := strCp "John", earning_status := 0,
                        earnings := 5000 }],
          expenses := [], nextExpenseId := 1, now := 0 }
        (strCp "JOHN") true 1 =
      .ok { members := [{ name := strCp "John", earning_status := 0,
                          earnings := 5000 }],
            expenses := [], nextExpenseId := 1, now := 0 } :=
  ⟨claim_C3_unique_names.1 initDB Reachable.init,
   claim_C3_unique_names.2.1 initDB (strCp "john") false 5000
     { members := [{ name := strCp "John", earning_status := 0,
                     earnings := 5000 }],
       expenses := [], nextExpenseId := 1, now := 0 }
     Reachable.init (by decide),
   claim_C3_unique_names.2.2 initDB
     { members := [{ name := strCp "John", earning_status := 0,
                     earnings := 5000 }],
       expenses := [], nextExpenseId := 1, now := 0 }
     (strCp "john") (strCp "JOHN") false true 5000 1
     (by simp [caseVariant, strCp]; decide) (by decide)⟩

/-- C4 counterexample.  `update_member` applies `name.title()` with no
`.strip()`: with "John" stored, `update_member(" John", True, 100)` — an
argument differing from the stored name only by a leading space — matches
nothing and leaves the member untouched, while the claim says it would
still update that member. -/
theorem claim_C4_counterexample :
    addMember initDB (strCp "John") false 0 =
      .ok { members := [{ name := strCp "John", earning_status := 0,
                          earnings := 0 }],
            expenses := [], nextExpenseId := 1, now := 0 } ∧
    pyTitle (pyStrip (strCp " John")) = strCp "John" ∧
    updateMember
        { members := [{ name := strCp "John", earning_status := 0,
                        earnings := 0 }],
          expenses := [], nextExpenseId := 1, now := 0 }
        (strCp " John") true 100 =
      { members := [{ name := strCp "John", earning_status := 0,
                      earnings := 0 }],
        expenses := [], nextExpenseId := 1, now := 0 } :=
  ⟨by decide, by decide, by decide⟩

/-- C4 (amended).  `update_member` overwrites `earning_status`/`earnings`
of exactly the rows whose stored name equals `name.title()` — title-case
only, without the trim that `add_member` applies, so an argument with
surrounding whitespace does not match a trimmed stored name (see the
counterexample); when no row matches, the call is a no-op and raises no
error; the expenses table is never touched. -/
theorem claim_C4_update_member_title_only (db : DB) (name : PyStr) (es : Bool)
    (e : Rat) :
    (updateMember db name es e).expenses = db.expenses ∧
    (∀ m ∈ db.members, m.name = pyTitle name →
      ({ name := m.name, earning_status := if es then 1 else 0,
         earnings := e } : MemberRow) ∈ (updateMember db name es e).members) ∧
    (∀ m ∈ db.members, m.name ≠ pyTitle name →
      m ∈ (updateMember db name es e).members) ∧
    ((∀ m ∈ db.members, m.name ≠ pyTitle name) →
      updateMember db name es e = db) := by
  refine ⟨rfl, ?_, ?_, ?_⟩
  · intro m hm hname
    simp only [updateMember]
    refine List.mem_map.mpr ⟨m, hm, ?_⟩
    rw [if_pos hname]
  · intro m hm hname
    simp only [updateMember]
    refine List.mem_map.mpr ⟨m, hm, ?_⟩
    rw [if_neg hname]
  · intro hall
    have hmap : ∀ l : List MemberRow, (∀ m ∈ l, m.name ≠ pyTitle name) →
        l.map (fun m =>
          if m.name = pyTitle name then
            { m with earning_status := if es then 1 else 0
                     earnings := e }
          else m) = l := by
      intro l
      induction l with
      | nil => intro _; rfl
      | cons y ys ih =>
        intro hl
        rw [List.map_cons, if_neg (hl y (by simp)),
          ih (fun m hm => hl m (by simp [hm]))]
    show { db with members := _ } = db
    rw [hmap db.members hall]

/-- Witness for C4 (amended): `update_member("john", ...)` does hit the
stored "John" (title-case matches), and an unknown name is a no-op. -/
theorem claim_C4_witness :
    ({ name := strCp "John", earning_status := 1, earnings := 100 } : MemberRow) ∈
      (updateMember
        { members := [{ name := strCp "John", earning_status := 0,
                        earnings := 0 }],
          expenses := [], nextExpenseId := 1, now := 0 }
        (strCp "john") true 100).members ∧
    updateMember
        { members := [{ name := strCp "John", earning_status := 0,
                        earnings := 0 }],
          expenses := [], nextExpenseId := 1, now := 0 }
        (strCp "ghost") true 100 =
      { members := [{ name := strCp "John", earning_status := 0,
                      earnings := 0 }],
        expenses := [], nextExpenseId := 1, now := 0 } :=
  ⟨(claim_C4_update_member_title_only
      { members := [{ name := strCp "John", earning_status := 0,
                      earnings := 0 }],
        expenses := [], nextExpenseId := 1, now := 0 }
      (strCp "john") true 100).2.1
      { name := strCp "John", earning_status := 0, earnings := 0 }
      (by decide) (by decide),
   (claim_C4_update_member_title_only
      { members := [{ name := strCp "John", earning_status := 0,
                      earnings := 0 }],
        expenses := [], nextExpenseId := 1, now := 0 }
      (strCp "ghost") true 100).2.2.2 (by decide)⟩

/-- C6 counterexample.  Two expenses inserted with the same date inside the
same clock second tie on the whole sort key (`date`, `created_at`); the
query has no further tie-breaker and the rows come back in insertion order
— ids `[1, 2]`, earliest first — not most-recently-inserted first, which
would be `[2, 1]`. -/
theorem claim_C6_counterexample :
    addExpense initDB (strCp "John") 10 (strCp "monthly") (strCp "Food")
        (strCp "small") none (some (strCp "A")) (strCp "2024-01-15") =
      .ok { members := [],
            expenses := [{ id := 1, person := strCp "John",
                           description := strCp "A", amount := 10,
                           category_period := strCp "monthly",
                           category := strCp "Food",
                           expense_type := strCp "small", sub_type := [],
                           date := strCp "2024-01-15", created_at := 0 }],
            nextExpenseId := 2, now := 0 } ∧
    addExpense
        { members := [],
          expenses := [{ id := 1, person := strCp "John",
                         description := strCp "A", amount := 10,
                         category_period := strCp "monthly",
                         category := strCp "Food",
                         expense_type := strCp "small", sub_type := [],
                         date := strCp "2024-01-15", created_at := 0 }],
          nextExpenseId := 2, now := 0 }
        (strCp "John") 10 (strCp "monthly") (strCp "Food") (strCp "small")
        none (some (strCp "B")) (strCp "2024-01-15") =
      .ok { members := [],
            expenses := [{ id := 1, person := strCp "John",
                           description := strCp "A", amount := 10,
                           category_period := strCp "monthly",
                           category := strCp "Food",
                           expense_type := strCp "small", sub_type := [],
                           date := strCp "2024-01-15", created_at := 0 },
                         { id := 2, person := strCp "John",
                           description := strCp "B", amount := 10,
                           category_period := strCp "monthly",
                           category := strCp "Food",
                           expense_type := strCp "small", sub_type := [],
                           date := strCp "2024-01-15", created_at := 0 }],
            nextExpenseId := 3, now := 0 } ∧
    (getExpensesDf
        { members := [],
          expenses := [{ id := 1, person := strCp "John",
                         description := strCp "A", amount := 10,
                         category_period := strCp "monthly",
                         category := strCp "Food",
                         expense_type := strCp "small", sub_type := [],
                         date := strCp "2024-01-15", created_at := 0 },
                       { id := 2, person := strCp "John",
                         description := strCp "B", amount := 10,
                         category_period := strCp "monthly",
                         category := strCp "Food",
                         expense_type := strCp "small", sub_type := [],
                         date := strCp "2024-01-15", created_at := 0 }],
          nextExpenseId := 3, now := 0 }).map (fun r => r.id) = [1, 2] ∧
    (getExpensesDf
        { members := [],
          expenses := [{ id := 1, person := strCp "John",
                         description := strCp "A", amount := 10,
                         category_period := strCp "monthly",
                         category := strCp "Food",
                         expense_type := strCp "small", sub_type := [],
                         date := strCp "2024-01-15", created_at := 0 },
                       { id := 2, person := strCp "John",
                         description := strCp "B", amount := 10,
                         category_period := strCp "monthly",
                         category := strCp "Food",
                         expense_type := strCp "small", sub_type := [],
                         date := strCp "2024-01-15", created_at := 0 }],
          nextExpenseId := 3, now := 0 }).map (fun r => r.id) ≠ [2, 1] :=
  ⟨by decide, by decide, by decide, by decide⟩

/-- C6 (amended).  `list_expenses` returns all expense rows (a permutation
of the table) ordered by date descending then creation timestamp
descending; rows with equal date and equal creation timestamp keep their
insertion (rowid) order — earliest-inserted first — since the query
supplies no further tie-breaker (see the counterexample for
most-recently-inserted first being refuted). -/
theorem claim_C6_ordering_amended (db : DB) :
    List.Perm (getExpensesDf db) db.expenses ∧
    (getExpensesDf db).Pairwise (fun a b => expLt b a = false) ∧
    (∀ (dts : PyStr) (ct : Nat),
      (getExpensesDf db).filter
          (fun r => decide (r.date = dts ∧ r.created_at = ct)) =
        db.expenses.filter
          (fun r => decide (r.date = dts ∧ r.created_at = ct))) := by
  refine ⟨sortBy_perm _ _, sortBy_pairwise _ expLt_trans expLt_irrefl _, ?_⟩
  intro dts ct
  refine sortBy_filter expLt _ expLt_trans expLt_irrefl ?_ ?_ db.expenses
  · intro a b hpa hpb c3
    simp only [decide_eq_true_eq] at hpa hpb
    exact expLt_congr_left (hpa.1.trans hpb.1.symm) (hpa.2.trans hpb.2.symm) c3
  · intro a b hpa hpb
    simp only [decide_eq_true_eq] at hpa hpb
    exact expLt_same_key (hpa.1.trans hpb.1.symm) (hpa.2.trans hpb.2.symm)

/-- C7 counterexample.  The repository never validates the sign of
`earnings`: `add_member("John", False, -1)` succeeds and the reachable
state stores a negative earnings value. -/
theorem claim_C7_counterexample :
    addMember initDB (strCp "John") false (-1) =
      .ok { members := [{ name := strCp "John", earning_status := 0,
                          earnings := -1 }],
            expenses := [], nextExpenseId := 1, now := 0 } ∧
    Reachable { members := [{ name := strCp "John", earning_status := 0,
                              earnings := -1 }],
                expenses := [], nextExpenseId := 1, now := 0 } ∧
    ¬ (∀ m ∈ ({ members := [{ name := strCp "John", earning_status := 0,
                              earnings := -1 }],
                expenses := [], nextExpenseId := 1, now := 0 } : DB).members,
        0 ≤ m.earnings) := by
  refine ⟨by decide,
    @Reachable.add_member initDB
      { members := [{ name := strCp "John", earning_status := 0,
                      earnings := -1 }],
        expenses := [], nextExpenseId := 1, now := 0 }
      (strCp "John") false (-1) Reachable.init (by decide), ?_⟩
  intro hall
  have h1 := hall { name := strCp "John", earning_status := 0, earnings := -1 }
    (by simp)
  exact absurd h1 (by decide)

/-- C7 (amended).  The non-negativity of stored earnings is not enforced by
the repository (see the counterexample); it holds exactly on the states
reachable by traces in which every `add_member`/`update_member` call passes
a non-negative `earnings` argument, as the producing UI form does. -/
theorem claim_C7_earnings_nonneg_amended (db : DB) (h : ReachableNN db) :
    ∀ m ∈ db.members, 0 ≤ m.earnings :=
  reachableNN_earnings_nonneg h

/-- Witness for C7 (amended) on a concrete non-negative trace. -/
theorem claim_C7_witness :
    (0 : Rat) ≤ ({ name := strCp "John", earning_status := 1,
                   earnings := 5000 } : MemberRow).earnings :=
  claim_C7_earnings_nonneg_amended
    { members := [{ name := strCp "John", earning_status := 1,
                    earnings := 5000 }],
      expenses := [], nextExpenseId := 1, now := 0 }
    (@ReachableNN.add_member initDB
      { members := [{ name := strCp "John", earning_status := 1,
                      earnings := 5000 }],
        expenses := [], nextExpenseId := 1, now := 0 }
      (strCp "John") true 5000 ReachableNN.init (by decide) (by decide))
    { name := strCp "John", earning_status := 1, earnings := 5000 }
    (by decide)
